import Mathlib

set_option maxRecDepth 8192

/- Formal model of the application registry and isolated-launch subsystem of
   the Wine EXE Manager (src/exe_manager.py).  Python dictionaries, which keep
   insertion order, are modelled as association lists; the filesystem as an
   explicit list of existing paths each carrying its executable bit; and each
   mutating method of the WineExeManager class as a state-passing function. -/

/-- One registered application, holding the seven fields of the exe_info
dictionary built by add_exe (src/exe_manager.py lines 571-579). -/
structure ExeInfo where
  name : String
  path : String
  bottle : String
  category : String
  custom_name : String
  launch_options : String
  notes : String
deriving DecidableEq

/-- The category index self.categories: an insertion-ordered map from category
name to the list of integer positions into the exes list. -/
abbrev Categories := List (String × List Nat)

/-- Registry state: the flat exes list plus the category index, the two views
the spec requires to stay consistent. -/
structure ManagerState where
  exes : List ExeInfo
  categories : Categories
deriving DecidableEq

/-- The host filesystem as seen through os.path.exists and os.access: a list
of existing paths, each with its executable bit. -/
abbrev FS := List (String × Bool)

/-- os.path.exists. -/
def pathExists (fs : FS) (p : String) : Bool :=
  fs.any (fun q => q.1 == p)

/-- os.access(p, os.X_OK); false for a path that does not exist. -/
def isExec (fs : FS) (p : String) : Bool :=
  fs.any (fun q => q.1 == p && q.2)

/-- Indexing the insertion-ordered category map (Python dict lookup). -/
def catLookup (cats : Categories) (k : String) : Option (List Nat) :=
  match cats with
  | [] => none
  | (n, l) :: rest => if n = k then some l else catLookup rest k

/-- In-place mutation of the list stored under an existing key (the source
only applies it to keys that are present; on an absent key the source would
raise KeyError, which no claim exercises, and the map is left unchanged). -/
def catUpdate (cats : Categories) (k : String) (f : List Nat → List Nat) : Categories :=
  match cats with
  | [] => []
  | (n, l) :: rest => if n = k then (n, f l) :: rest else (n, l) :: catUpdate rest k f

/-- The idiom "if category not in self.categories: self.categories[category] = []"
used by add_exe (lines 583-585) and the legacy loader (lines 313-314). -/
def catEnsure (cats : Categories) (k : String) : Categories :=
  if (catLookup cats k).isNone then cats ++ [(k, [])] else cats

/-- The built-in category index created in WineExeManager.__init__
(lines 174-178). -/
def initCategories : Categories :=
  [("Games", []), ("Productivity", []), ("Other", [])]

/-- The registry state right after __init__ when no stored file exists. -/
def initState : ManagerState :=
  { exes := [], categories := initCategories }

/-- Replace every non-overlapping occurrence of pat, scanning left to right
(the semantics of Python str.replace); the fuel argument, set to the length of
the scanned text, only makes the recursion structural. -/
def strReplaceAux (pat rep : List Char) : Nat → List Char → List Char
  | _, [] => []
  | 0, l => l
  | fuel + 1, c :: rest =>
    if pat.isPrefixOf (c :: rest) then
      rep ++ strReplaceAux pat rep fuel ((c :: rest).drop pat.length)
    else c :: strReplaceAux pat rep fuel rest

/-- Python str.replace (all occurrences). -/
def strReplace (s pat rep : String) : String :=
  String.mk (strReplaceAux pat.data rep.data s.data.length s.data)

/-- os.path.basename: the part after the last slash. -/
def basename (p : String) : String :=
  String.mk (p.data.foldl (fun acc c => if c = '/' then [] else acc ++ [c]) [])

/-- WineExeManager.add_exe (lines 530-630): the registration logic, with the
file picker and the category dialog abstracted into the filepath and category
arguments.  The source performs no existence or extension check on filepath.
An empty filepath or an empty category models a cancelled dialog and aborts
without any change.  The default display name replaces every occurrence of
".exe" in the base name, exactly as str.replace does.  The bottle name is
"bottle_" followed by the current length of the exes list, and os.makedirs
on the bottle path is recorded in the returned filesystem.  Returns the new
filesystem, the new registry state, and the index of the new entry (none when
aborted). -/
def add_exe (bottlesDir : String) (fs : FS) (s : ManagerState)
    (filepath category : String) : FS × ManagerState × Option Nat :=
  if filepath = "" then (fs, s, none)
  else if category = "" then (fs, s, none)
  else
    let name := strReplace (basename filepath) ".exe" ""
    let bottleName := "bottle_" ++ toString s.exes.length
    let bottlePath := bottlesDir ++ "/" ++ bottleName
    let fs2 := if pathExists fs bottlePath then fs else fs ++ [(bottlePath, false)]
    let exeInfo : ExeInfo :=
      { name := name, path := filepath, bottle := bottleName, category := category,
        custom_name := name, launch_options := "", notes := "" }
    let cats1 := catEnsure s.categories category
    let exes2 := s.exes ++ [exeInfo]
    let newIndex := exes2.length - 1
    let cats2 := catUpdate cats1 category (fun l => l ++ [newIndex])
    (fs2, { exes := exes2, categories := cats2 }, some newIndex)

/-- Outcome of move_to_category: ok means the method ran to completion and
save_exes was reached; raised means an uncaught exception aborted it, leaving
behind whatever mutations preceded the raise and never saving. -/
inductive MoveResult where
  | ok (s : ManagerState)
  | raised (s : ManagerState)
deriving DecidableEq

/-- The registry state a move leaves behind. -/
def MoveResult.state : MoveResult → ManagerState
  | MoveResult.ok s => s
  | MoveResult.raised s => s

/-- Whether the move ran to completion and reached save_exes. -/
def MoveResult.saved : MoveResult → Bool
  | MoveResult.ok _ => true
  | MoveResult.raised _ => false

/-- WineExeManager.move_to_category (lines 950-963), with every error path of
the Python kept.  self.exes[exe_index] raises IndexError when out of range
(nothing mutated).  self.categories[old_category] raises KeyError when the
key is absent (nothing mutated).  list.remove raises ValueError when the
index is not in that member list, mutating nothing; on success it drops the
first occurrence in place.  self.categories[new_category] raises KeyError
when that key is absent — at that point the remove has already mutated the
old member list, and that partial mutation is what remains.  Only when all
four steps pass is the index appended, the category field rewritten, and
save_exes reached. -/
def move_to_category (s : ManagerState) (i : Nat) (newCategory : String) :
    MoveResult :=
  match s.exes.get? i with
  | none => MoveResult.raised s
  | some exe =>
    let oldCategory := exe.category
    match catLookup s.categories oldCategory with
    | none => MoveResult.raised s
    | some oldList =>
      if oldList.contains i then
        let cats1 := catUpdate s.categories oldCategory (fun l => l.erase i)
        match catLookup cats1 newCategory with
        | none => MoveResult.raised { s with categories := cats1 }
        | some _ =>
          let cats2 := catUpdate cats1 newCategory (fun l => l ++ [i])
          let exes2 := s.exes.set i { exe with category := newCategory }
          MoveResult.ok { exes := exes2, categories := cats2 }
      else MoveResult.raised s

/-- WineExeManager.remove_selected (lines 965-986), the confirmed branch:
del self.exes[selected_idx] followed by save_exes.  The category index is not
touched at all.  The boolean records whether save_exes was reached; an
out-of-range index would raise IndexError in the source and is modelled as an
unchanged state without a save. -/
def remove_selected (s : ManagerState) (i : Nat) : ManagerState × Bool :=
  if i < s.exes.length then ({ s with exes := s.exes.eraseIdx i }, true)
  else (s, false)

/-- Total number of occurrences of index i across all member lists of the
category index. -/
def countInCats (cats : Categories) (i : Nat) : Nat :=
  cats.foldl (fun a p => a + p.2.count i) 0

/-- The consistency invariant of the spec: every index into exes occurs in
exactly one member list of the category index, and the member list of the
category stored in its own entry contains it. -/
def consistentB (s : ManagerState) : Bool :=
  (List.range s.exes.length).all fun i =>
    countInCats s.categories i == 1 &&
    match s.exes.get? i with
    | some e =>
      (match catLookup s.categories e.category with
       | some l => l.contains i
       | none => false)
    | none => true

/- Concrete registration sequences used for the evaluation theorems. -/

/-- State after registering /apps/alpha.exe into Games (C1 sequence). -/
def c1S1 : ManagerState := (add_exe "/m/bottles" [] initState "/apps/alpha.exe" "Games").2.1

/-- State after also registering /apps/beta.exe into Other (C1 sequence). -/
def c1S2 : ManagerState := (add_exe "/m/bottles" [] c1S1 "/apps/beta.exe" "Other").2.1

/-- State after removing entry 0 (C1 sequence). -/
def c1S3 : ManagerState := (remove_selected c1S2 0).1

/-- C1: the spec says that after every register, move or remove operation on
an initially consistent registry, every index in exes occurs in exactly one
member list, the one of its own category field.  The code violates this:
remove_selected deletes the entry from the exes list but never updates the
category index, so after registering alpha into Games and beta into Other and
then removing entry 0, the surviving entry sits at index 0 with category
Other while the member list of Games is the one containing 0. -/
theorem c1_remove_breaks_consistency :
    consistentB initState = true ∧ consistentB c1S1 = true ∧
    consistentB c1S2 = true ∧ consistentB c1S3 = false := by decide

/-- C2: counterexample.  The spec says register of a path that is not an
existing file fails with InvalidInput and leaves the registry unchanged; the
code never consults the filesystem about filepath, so on an empty filesystem
the registration of /no/such/file.exe succeeds and mutates the state. -/
theorem c2_register_missing_file_succeeds :
    pathExists [] "/no/such/file.exe" = false ∧
    (add_exe "/m/bottles" [] initState "/no/such/file.exe" "Games").2.2 = some 0 ∧
    (add_exe "/m/bottles" [] initState "/no/such/file.exe" "Games").2.1 ≠ initState := by
  decide

/-- C2 amended: add_exe performs no validation of the filepath at all; for
every nonempty filepath and nonempty category it succeeds, returning the index
of the appended entry, and grows the exes list by one. -/
theorem c2_register_never_validates_path (bottlesDir : String) (fs : FS)
    (s : ManagerState) (p c : String) (hp : p ≠ "") (hc : c ≠ "") :
    (add_exe bottlesDir fs s p c).2.2 = some s.exes.length ∧
    (add_exe bottlesDir fs s p c).2.1.exes.length = s.exes.length + 1 := by
  simp [add_exe, hp, hc]

/-- C2 witness: the amended theorem evaluated on a concrete registration. -/
theorem c2_register_never_validates_path_witness :
    (add_exe "/m/bottles" [] initState "/apps/alpha.exe" "Games").2.2 = some 0 ∧
    (add_exe "/m/bottles" [] initState "/apps/alpha.exe" "Games").2.1.exes.length = 0 + 1 :=
  c2_register_never_validates_path "/m/bottles" [] initState "/apps/alpha.exe" "Games"
    (by decide) (by decide)

/-- State after registering alpha into Games (C4 sequence). -/
def c4S1 : ManagerState := (add_exe "/m/bottles" [] initState "/apps/alpha.exe" "Games").2.1

/-- State after also registering beta into Games (C4 sequence). -/
def c4S2 : ManagerState := (add_exe "/m/bottles" [] c4S1 "/apps/beta.exe" "Games").2.1

/-- State after removing entry 0 (C4 sequence). -/
def c4S3 : ManagerState := (remove_selected c4S2 0).1

/-- State after then registering gamma into Games (C4 sequence). -/
def c4S4 : ManagerState := (add_exe "/m/bottles" [] c4S3 "/apps/gamma.exe" "Games").2.1

/-- C4: the bottle identifier is "bottle_" ++ current length of exes, so after
register alpha, register beta, remove the first entry, register gamma, the new
entry receives bottle_1 even though the surviving beta entry already owns
bottle_1: two registered entries share one bottle, violating the never-shared
invariant the spec states. -/
theorem c4_bottle_identifier_reused :
    c4S3.exes.map (fun e => e.bottle) = ["bottle_1"] ∧
    c4S4.exes.map (fun e => e.bottle) = ["bottle_1", "bottle_1"] := by decide

/- Small lemma kit for the insertion-ordered maps. -/

/-- Updating the list stored under a present key is visible through lookup. -/
theorem catLookup_catUpdate_self (cats : Categories) (k : String)
    (f : List Nat → List Nat) (l : List Nat) (h : catLookup cats k = some l) :
    catLookup (catUpdate cats k f) k = some (f l) := by
  induction cats with
  | nil => simp [catLookup] at h
  | cons p rest ih =>
    obtain ⟨n, l0⟩ := p
    by_cases hk : n = k
    · simp [catLookup, hk] at h
      simp [catLookup, catUpdate, hk, h]
    · simp [catLookup, hk] at h
      simp [catLookup, catUpdate, hk, ih h]

/-- Updating under one key leaves lookup under any other key unchanged. -/
theorem catLookup_catUpdate_ne (cats : Categories) (k n : String)
    (f : List Nat → List Nat) (h : n ≠ k) :
    catLookup (catUpdate cats k f) n = catLookup cats n := by
  induction cats with
  | nil => simp [catUpdate]
  | cons p rest ih =>
    obtain ⟨m, l0⟩ := p
    by_cases hm : m = k
    · have hkn : ¬ k = n := fun hc => h hc.symm
      simp [catUpdate, catLookup, hm, hkn]
    · by_cases hn : m = n
      · simp [catUpdate, catLookup, hm, hn, h]
      · simp [catUpdate, catLookup, hm, hn, ih]

/-- Updating under an absent key does nothing. -/
theorem catUpdate_of_none (cats : Categories) (k : String)
    (f : List Nat → List Nat) (h : catLookup cats k = none) :
    catUpdate cats k f = cats := by
  induction cats with
  | nil => rfl
  | cons p rest ih =>
    obtain ⟨n, l0⟩ := p
    by_cases hk : n = k
    · simp [catLookup, hk] at h
    · simp [catLookup, hk] at h
      simp [catUpdate, hk, ih h]

/-- Two successive updates under one key compose. -/
theorem catUpdate_catUpdate (cats : Categories) (k : String)
    (f g : List Nat → List Nat) :
    catUpdate (catUpdate cats k f) k g = catUpdate cats k (fun l => g (f l)) := by
  induction cats with
  | nil => rfl
  | cons p rest ih =>
    obtain ⟨n, l0⟩ := p
    by_cases hk : n = k
    · simp [catUpdate, hk]
    · simp [catUpdate, hk, ih]

/-- Updates agreeing on the stored list give equal maps. -/
theorem catUpdate_congr (cats : Categories) (k : String)
    (f g : List Nat → List Nat) (l : List Nat)
    (h : catLookup cats k = some l) (hfg : f l = g l) :
    catUpdate cats k f = catUpdate cats k g := by
  induction cats with
  | nil => rfl
  | cons p rest ih =>
    obtain ⟨n, l0⟩ := p
    by_cases hk : n = k
    · simp [catLookup, hk] at h
      subst h
      simp [catUpdate, hk, hfg]
    · simp [catLookup, hk] at h
      simp [catUpdate, hk, ih h]

/-- Lookup passes over a prefix in which the key is absent. -/
theorem catLookup_append_of_none (cats cats2 : Categories) (n : String)
    (h : catLookup cats n = none) :
    catLookup (cats ++ cats2) n = catLookup cats2 n := by
  induction cats with
  | nil => rfl
  | cons p rest ih =>
    obtain ⟨m, l0⟩ := p
    by_cases hm : m = n
    · simp [catLookup, hm] at h
    · simp [catLookup, hm] at h
      simp [catLookup, hm, ih h]

/-- Lookup that succeeds in a prefix ignores the suffix. -/
theorem catLookup_append_of_some (cats cats2 : Categories) (n : String)
    (l : List Nat) (h : catLookup cats n = some l) :
    catLookup (cats ++ cats2) n = some l := by
  induction cats with
  | nil => simp [catLookup] at h
  | cons p rest ih =>
    obtain ⟨m, l0⟩ := p
    by_cases hm : m = n
    · simp [catLookup, hm] at h
      simp [catLookup, hm, h]
    · simp [catLookup, hm] at h
      simp [catLookup, hm, ih h]

/-- After catEnsure the key is present, holding its old list or []. -/
theorem catLookup_catEnsure_self (cats : Categories) (k : String) :
    catLookup (catEnsure cats k) k = some ((catLookup cats k).getD []) := by
  unfold catEnsure
  cases h : catLookup cats k with
  | none =>
    rw [if_pos (by simp [h])]
    rw [catLookup_append_of_none cats _ k h]
    simp [catLookup]
  | some l => simp [h]

/-- catEnsure does not disturb lookup under other keys. -/
theorem catLookup_catEnsure_ne (cats : Categories) (k n : String) (h : n ≠ k) :
    catLookup (catEnsure cats k) n = catLookup cats n := by
  unfold catEnsure
  cases hk : catLookup cats k with
  | none =>
    rw [if_pos (by simp [hk])]
    cases hn : catLookup cats n with
    | none =>
      rw [catLookup_append_of_none cats _ n hn]
      have hkn : ¬ k = n := fun hc => h hc.symm
      simp [catLookup, hkn]
    | some l => rw [catLookup_append_of_some cats _ n l hn]
  | some l => simp [hk]

/-- Writing back the element already stored at a position is the identity. -/
theorem list_set_get_self {α : Type} (l : List α) (i : Nat) (a : α)
    (h : l.get? i = some a) : l.set i a = l := by
  induction l generalizing i with
  | nil => exact Option.noConfusion h
  | cons x xs ih =>
    cases i with
    | zero =>
      have hx : x = a := Option.some.inj h
      simp [List.set, hx]
    | succ j =>
      have h2 : xs.get? j = some a := h
      simp [List.set, ih j h2]

/- C3: moving an entry to the category it is already in. -/

/-- State after registering alpha into Games (C3 sequence). -/
def c3S1 : ManagerState := (add_exe "/m/bottles" [] initState "/apps/alpha.exe" "Games").2.1

/-- State after also registering beta into Games (C3 sequence). -/
def c3S2 : ManagerState := (add_exe "/m/bottles" [] c3S1 "/apps/beta.exe" "Games").2.1

/-- The entry stored at index 0 of c3S2. -/
def c3E : ExeInfo :=
  { name := "alpha", path := "/apps/alpha.exe", bottle := "bottle_0",
    category := "Games", custom_name := "alpha", launch_options := "", notes := "" }

/-- C3: counterexample.  With Games = [0, 1], moving entry 0 to its own
current category Games is not the identity: list.remove followed by append
reorders the member list to [1, 0], and save_exes is reached, so persistence
is performed.  Both halves of the claim fail. -/
theorem c3_move_same_category_not_noop :
    catLookup c3S2.categories "Games" = some [0, 1] ∧
    (move_to_category c3S2 0 "Games").saved = true ∧
    (move_to_category c3S2 0 "Games").state ≠ c3S2 ∧
    catLookup (move_to_category c3S2 0 "Games").state.categories "Games" =
      some [1, 0] := by
  decide

/-- C3 amended: when the entry exists and its index actually sits in the
member list of its own category — which the consistency invariant guarantees,
and without which list.remove raises ValueError and nothing is mutated or
saved — moving it to that same category removes the index from the list and
re-appends it at the end, always reaching save_exes.  The state is in general
not the one before; the operation is idempotent only in the weaker algebraic
sense that applying it twice returns exactly the result of applying it once
(given the member list holds the index at most once). -/
theorem c3_move_same_category_amended (s : ManagerState) (i : Nat) (e : ExeInfo)
    (l : List Nat) (hi : s.exes.get? i = some e)
    (hl : catLookup s.categories e.category = some l)
    (hmem : i ∈ l) (hcount : l.count i ≤ 1) :
    (move_to_category s i e.category).saved = true ∧
    catLookup (move_to_category s i e.category).state.categories e.category =
      some (l.erase i ++ [i]) ∧
    move_to_category (move_to_category s i e.category).state i e.category =
      move_to_category s i e.category := by
  have hnotmem : i ∉ l.erase i := by
    rw [← List.count_eq_zero]
    have := List.count_erase_self i l
    omega
  have hfix : ((l.erase i ++ [i]).erase i) ++ [i] = l.erase i ++ [i] := by
    rw [List.erase_append_right _ hnotmem, List.erase_cons_head, List.append_nil]
  have heq : ({ e with category := e.category } : ExeInfo) = e := rfl
  -- one same-category application on the success path, in closed form
  have hstep : ∀ (t : ManagerState) (m : List Nat), t.exes.get? i = some e →
      catLookup t.categories e.category = some m → i ∈ m →
      move_to_category t i e.category =
        MoveResult.ok
          { exes := t.exes,
            categories := catUpdate t.categories e.category
              (fun l0 => l0.erase i ++ [i]) } := by
    intro t m ht hm hmm
    have hcont : m.contains i = true := List.elem_iff.mpr hmm
    unfold move_to_category
    rw [ht]
    simp only [hm, hcont, if_true, catLookup_catUpdate_self _ _ _ _ hm]
    simp only [heq, list_set_get_self t.exes i e ht, catUpdate_catUpdate]
  have h1 := hstep s l hi hl hmem
  have hs1 : (move_to_category s i e.category).state.exes.get? i = some e := by
    rw [h1]; exact hi
  have hl1 : catLookup (move_to_category s i e.category).state.categories
      e.category = some (l.erase i ++ [i]) := by
    rw [h1]
    exact catLookup_catUpdate_self _ _ _ _ hl
  have hmem1 : i ∈ l.erase i ++ [i] := by simp
  have h2 := hstep (move_to_category s i e.category).state (l.erase i ++ [i])
    hs1 hl1 hmem1
  refine ⟨by rw [h1]; rfl, hl1, ?_⟩
  rw [h2, h1]
  have hcats : catUpdate (catUpdate s.categories e.category
        (fun l0 => l0.erase i ++ [i])) e.category (fun l0 => l0.erase i ++ [i]) =
      catUpdate s.categories e.category (fun l0 => l0.erase i ++ [i]) := by
    rw [catUpdate_catUpdate]
    exact catUpdate_congr _ _ _ _ l hl hfix
  simp only [MoveResult.state, hcats]

/-- C3 witness: the amended theorem evaluated on the concrete two-entry
registry with Games = [0, 1]. -/
theorem c3_move_same_category_amended_witness :
    (move_to_category c3S2 0 "Games").saved = true ∧
    catLookup (move_to_category c3S2 0 "Games").state.categories "Games" =
      some (([0, 1] : List Nat).erase 0 ++ [0]) ∧
    move_to_category (move_to_category c3S2 0 "Games").state 0 "Games" =
      move_to_category c3S2 0 "Games" :=
  c3_move_same_category_amended c3S2 0 c3E [0, 1] (by decide) (by decide)
    (by decide) (by decide)

/- Launch coordinator model (launch_selected, lines 766-822) and the
runtime locator (find_wine_binary, lines 488-508). -/

/-- os.path.dirname, following the posix rule: everything up to the last
slash, with trailing slashes stripped unless the head is nothing but
slashes. -/
def dirname (p : String) : String :=
  let headRev := (p.data.reverse).dropWhile (fun c => c ≠ '/')
  let stripped := headRev.dropWhile (fun c => c = '/')
  if stripped = [] then String.mk headRev.reverse else String.mk stripped.reverse

/-- Python substring containment, the operator "needle in hay" used at line
797 to decide whether the located binary is the bundled one. -/
def strContainsSub (hay needle : String) : Bool :=
  hay.data.tails.any (fun t => needle.data.isPrefixOf t)

/-- Python str.split() with no argument: split on whitespace runs, dropping
empty pieces (used on launch_options at line 805). -/
def tokenizeWhitespace (s : String) : List String :=
  (s.split Char.isWhitespace).filter (fun t => t ≠ "")

/-- Assignment into os.environ-style dictionaries: replace the value stored
under an existing key in place, or append a new binding. -/
def envSet (env : List (String × String)) (k v : String) : List (String × String) :=
  match env with
  | [] => [(k, v)]
  | (k0, v0) :: rest => if k0 = k then (k0, v) :: rest else (k0, v0) :: envSet rest k v

/-- Dictionary lookup on an environment. -/
def envLookup (env : List (String × String)) (k : String) : Option String :=
  match env with
  | [] => none
  | (k0, v0) :: rest => if k0 = k then some v0 else envLookup rest k

/-- Result of one launch attempt: the file check failed, no runtime binary
was located, or a process was spawned with the given environment and argument
vector. -/
inductive LaunchOutcome where
  | missingFile
  | noWine
  | spawned (env : List (String × String)) (cmd : List String)
deriving DecidableEq

/-- True exactly for a spawned outcome. -/
def isSpawned : LaunchOutcome → Bool
  | LaunchOutcome.spawned _ _ => true
  | _ => false

/-- WineExeManager.launch_selected (lines 766-822), with the list-widget
selection abstracted into the exe argument and get_wine_command into the
wineCmd argument (none when find_wine_binary failed).  Checks that the
executable path exists, computes the bottle path, copies the host
environment, overrides WINEPREFIX, and sets DYLD_LIBRARY_PATH to
dirname(dirname(binary))/lib when the wine directory occurs as a substring
of the binary path and that library directory exists.  The argument vector
is the binary, the executable path, then the whitespace-split launch
options when nonempty.  The filesystem is returned unchanged: the source
contains no makedirs call on this path. -/
def launch_selected (fs : FS) (bottlesDir wineDir : String)
    (hostEnv : List (String × String)) (wineCmd : Option String)
    (exe : ExeInfo) : FS × LaunchOutcome :=
  if pathExists fs exe.path = false then (fs, LaunchOutcome.missingFile)
  else
    match wineCmd with
    | none => (fs, LaunchOutcome.noWine)
    | some wc =>
      let bottlePath := bottlesDir ++ "/" ++ exe.bottle
      let env1 := envSet hostEnv "WINEPREFIX" bottlePath
      let env2 :=
        if strContainsSub wc wineDir then
          let wineLibDir := dirname (dirname wc) ++ "/lib"
          if pathExists fs wineLibDir then envSet env1 "DYLD_LIBRARY_PATH" wineLibDir
          else env1
        else env1
      let cmd := [wc, exe.path] ++
        (if exe.launch_options ≠ "" then tokenizeWhitespace exe.launch_options else [])
      (fs, LaunchOutcome.spawned env2 cmd)

/-- The entry used by the launch evaluation theorems. -/
def c5Exe : ExeInfo :=
  { name := "game", path := "/apps/game.exe", bottle := "bottle_0",
    category := "Games", custom_name := "game", launch_options := "", notes := "" }

/-- A filesystem in which the executable and a system wine exist but the
bottle directory of the entry does not. -/
def c5Fs : FS := [("/apps/game.exe", false), ("/usr/bin/wine", true)]

/-- C5: counterexample.  The spec says launch calls the bottle-ensure step,
creating the bottle directory when missing.  In the code the launch path
contains no makedirs: with the bottle directory absent the spawn still
happens and the filesystem is returned exactly as it was, the directory
still missing. -/
theorem c5_launch_does_not_create_bottle :
    pathExists c5Fs "/m/bottles/bottle_0" = false ∧
    (launch_selected c5Fs "/m/bottles" "/m/wine" [] (some "/usr/bin/wine") c5Exe).1 = c5Fs ∧
    isSpawned (launch_selected c5Fs "/m/bottles" "/m/wine" [] (some "/usr/bin/wine") c5Exe).2
      = true := by decide

/-- C5 amended: launch never touches the filesystem, so the bottle directory
is not created at launch time; it is created (only) by registration, where
add_exe runs makedirs on the bottle path. -/
theorem c5_bottle_created_at_registration_only
    (fs : FS) (bottlesDir wineDir : String) (hostEnv : List (String × String))
    (wineCmd : Option String) (exe : ExeInfo)
    (s : ManagerState) (p c : String) (hp : p ≠ "") (hc : c ≠ "") :
    (launch_selected fs bottlesDir wineDir hostEnv wineCmd exe).1 = fs ∧
    pathExists (add_exe bottlesDir fs s p c).1
      (bottlesDir ++ "/" ++ ("bottle_" ++ toString s.exes.length)) = true := by
  constructor
  · unfold launch_selected
    by_cases h : pathExists fs exe.path = false
    · simp [h]
    · cases wineCmd <;> simp [h]
  · simp only [add_exe, if_neg hp, if_neg hc]
    cases h : pathExists fs (bottlesDir ++ "/" ++ ("bottle_" ++ toString s.exes.length)) with
    | true => simp [h]
    | false => simp [h, pathExists, List.any_append]

/-- C5 witness: the amended theorem evaluated on the concrete missing-bottle
launch and a concrete registration. -/
theorem c5_bottle_created_at_registration_only_witness :
    (launch_selected c5Fs "/m/bottles" "/m/wine" [] (some "/usr/bin/wine") c5Exe).1 = c5Fs ∧
    pathExists (add_exe "/m/bottles" c5Fs initState "/apps/game.exe" "Games").1
      ("/m/bottles" ++ "/" ++ ("bottle_" ++ toString initState.exes.length)) = true :=
  c5_bottle_created_at_registration_only c5Fs "/m/bottles" "/m/wine" []
    (some "/usr/bin/wine") c5Exe initState "/apps/game.exe" "Games"
    (by decide) (by decide)

/-- Setting a key makes it visible through lookup. -/
theorem envLookup_envSet_self (env : List (String × String)) (k v : String) :
    envLookup (envSet env k v) k = some v := by
  induction env with
  | nil => simp [envSet, envLookup]
  | cons p rest ih =>
    obtain ⟨k0, v0⟩ := p
    by_cases hk : k0 = k
    · simp [envSet, envLookup, hk]
    · simp [envSet, envLookup, hk, ih]

/-- Setting a key leaves every other key untouched. -/
theorem envLookup_envSet_ne (env : List (String × String)) (k v n : String)
    (h : n ≠ k) :
    envLookup (envSet env k v) n = envLookup env n := by
  induction env with
  | nil =>
    have hkn : ¬ k = n := fun hc => h hc.symm
    simp [envSet, envLookup, hkn]
  | cons p rest ih =>
    obtain ⟨k0, v0⟩ := p
    by_cases hk : k0 = k
    · have hkn : ¬ k = n := fun hc => h hc.symm
      simp [envSet, envLookup, hk, hkn]
    · by_cases hn : k0 = n
      · simp [envSet, envLookup, hk, hn, h]
      · simp [envSet, envLookup, hk, hn, ih]

/-- The entry used by the C8 evaluation theorems. -/
def c8Exe : ExeInfo :=
  { name := "game", path := "/apps/game.exe", bottle := "bottle_0",
    category := "Games", custom_name := "game", launch_options := "", notes := "" }

/-- A filesystem holding the executable and the library directory derived
from the system binary path of the C8 counterexample. -/
def c8Fs : FS := [("/apps/game.exe", false), ("/b/a/lib", false)]

/-- Whether pre is a path prefix of s: the formal reading of the phrase
"lives inside" a directory once a trailing slash is appended to it. -/
def strHasPrefix (s pre : String) : Bool :=
  pre.data.isPrefixOf s.data

/-- C8: counterexample.  The claim says DYLD_LIBRARY_PATH is overridden only
when the located binary lives inside the managed runtime directory.  The code
tests substring containment (Python "self.wine_dir in wine_cmd"), so a system
binary at /b/a/wine/wine, which merely contains the managed directory /a/wine
as a substring without lying under it, still receives the override. -/
theorem c8_substring_match_overrides_system_runtime :
    strHasPrefix "/b/a/wine/wine" ("/a/wine" ++ "/") = false ∧
    (launch_selected c8Fs "/m/bottles" "/a/wine" [] (some "/b/a/wine/wine") c8Exe).2 =
      LaunchOutcome.spawned
        [("WINEPREFIX", "/m/bottles/bottle_0"), ("DYLD_LIBRARY_PATH", "/b/a/lib")]
        ["/b/a/wine/wine", "/apps/game.exe"] := by decide

/-- C8 amended: for every launch that reaches environment construction the
spawned environment is the host environment with WINEPREFIX overridden to the
bottle path, and DYLD_LIBRARY_PATH is set to dirname(dirname(binary))/lib
exactly when the managed runtime directory occurs as a substring of the
binary path and that library directory exists; every other variable is
inherited unchanged.  Substring containment, not path-prefix containment, is
the actual condition. -/
theorem c8_env_characterization (fs : FS) (bottlesDir wineDir : String)
    (hostEnv : List (String × String)) (wc : String) (exe : ExeInfo)
    (h : pathExists fs exe.path = true) :
    ∃ env cmd,
      (launch_selected fs bottlesDir wineDir hostEnv (some wc) exe).2 =
        LaunchOutcome.spawned env cmd ∧
      envLookup env "WINEPREFIX" = some (bottlesDir ++ "/" ++ exe.bottle) ∧
      envLookup env "DYLD_LIBRARY_PATH" =
        (if strContainsSub wc wineDir && pathExists fs (dirname (dirname wc) ++ "/lib")
         then some (dirname (dirname wc) ++ "/lib")
         else envLookup hostEnv "DYLD_LIBRARY_PATH") ∧
      ∀ k, k ≠ "WINEPREFIX" → k ≠ "DYLD_LIBRARY_PATH" →
        envLookup env k = envLookup hostEnv k := by
  have hWPDL : ("WINEPREFIX" : String) ≠ "DYLD_LIBRARY_PATH" := by decide
  cases hsub : strContainsSub wc wineDir with
  | false =>
    have hrun : (launch_selected fs bottlesDir wineDir hostEnv (some wc) exe).2 =
        LaunchOutcome.spawned
          (envSet hostEnv "WINEPREFIX" (bottlesDir ++ "/" ++ exe.bottle))
          ([wc, exe.path] ++
            (if exe.launch_options ≠ "" then tokenizeWhitespace exe.launch_options
             else [])) := by
      simp [launch_selected, h, hsub]
    refine ⟨_, _, hrun, envLookup_envSet_self _ _ _, ?_, ?_⟩
    · simp only [hsub, Bool.false_and, if_neg Bool.false_ne_true]
      exact envLookup_envSet_ne _ _ _ _ (fun hc => hWPDL hc.symm)
    · intro k hk1 _
      exact envLookup_envSet_ne _ _ _ _ hk1
  | true =>
    cases hlib : pathExists fs (dirname (dirname wc) ++ "/lib") with
    | false =>
      have hrun : (launch_selected fs bottlesDir wineDir hostEnv (some wc) exe).2 =
          LaunchOutcome.spawned
            (envSet hostEnv "WINEPREFIX" (bottlesDir ++ "/" ++ exe.bottle))
            ([wc, exe.path] ++
              (if exe.launch_options ≠ "" then tokenizeWhitespace exe.launch_options
               else [])) := by
        simp [launch_selected, h, hsub, hlib]
      refine ⟨_, _, hrun, envLookup_envSet_self _ _ _, ?_, ?_⟩
      · simp only [hsub, hlib, Bool.true_and, if_neg Bool.false_ne_true]
        exact envLookup_envSet_ne _ _ _ _ (fun hc => hWPDL hc.symm)
      · intro k hk1 _
        exact envLookup_envSet_ne _ _ _ _ hk1
    | true =>
      have hrun : (launch_selected fs bottlesDir wineDir hostEnv (some wc) exe).2 =
          LaunchOutcome.spawned
            (envSet (envSet hostEnv "WINEPREFIX" (bottlesDir ++ "/" ++ exe.bottle))
              "DYLD_LIBRARY_PATH" (dirname (dirname wc) ++ "/lib"))
            ([wc, exe.path] ++
              (if exe.launch_options ≠ "" then tokenizeWhitespace exe.launch_options
               else [])) := by
        simp [launch_selected, h, hsub, hlib]
      refine ⟨_, _, hrun, ?_, ?_, ?_⟩
      · rw [envLookup_envSet_ne _ _ _ _ hWPDL]
        exact envLookup_envSet_self _ _ _
      · simp only [hsub, hlib, Bool.true_and, if_pos rfl]
        exact envLookup_envSet_self _ _ _
      · intro k hk1 hk2
        rw [envLookup_envSet_ne _ _ _ _ hk2, envLookup_envSet_ne _ _ _ _ hk1]

/-- C8 witness: the characterization evaluated on the substring-matching
system binary of the counterexample. -/
theorem c8_env_characterization_witness :
    ∃ env cmd,
      (launch_selected c8Fs "/m/bottles" "/a/wine" [] (some "/b/a/wine/wine") c8Exe).2 =
        LaunchOutcome.spawned env cmd ∧
      envLookup env "WINEPREFIX" = some ("/m/bottles" ++ "/" ++ c8Exe.bottle) ∧
      envLookup env "DYLD_LIBRARY_PATH" =
        (if strContainsSub "/b/a/wine/wine" "/a/wine" &&
            pathExists c8Fs (dirname (dirname "/b/a/wine/wine") ++ "/lib")
         then some (dirname (dirname "/b/a/wine/wine") ++ "/lib")
         else envLookup [] "DYLD_LIBRARY_PATH") ∧
      ∀ k, k ≠ "WINEPREFIX" → k ≠ "DYLD_LIBRARY_PATH" →
        envLookup env k = envLookup [] k :=
  c8_env_characterization c8Fs "/m/bottles" "/a/wine" [] "/b/a/wine/wine" c8Exe
    (by decide)

/-- The inner loop of the os.walk scan (lines 496-501): for each file name in
one directory, return the joined path when the name is "wine" and the file is
executable, else keep scanning. -/
def fileSearch (fs : FS) (root : String) : List String → Option String
  | [] => none
  | f :: rest =>
    if f = "wine" then
      if isExec fs (root ++ "/" ++ f) then some (root ++ "/" ++ f)
      else fileSearch fs root rest
    else fileSearch fs root rest

/-- The outer loop of the os.walk scan: directories in walk order, each
paired with its file names. -/
def walkSearch (fs : FS) : List (String × List String) → Option String
  | [] => none
  | rd :: rest =>
    match fileSearch fs rd.1 rd.2 with
    | some p => some p
    | none => walkSearch fs rest

/-- WineExeManager.find_wine_binary (lines 488-508): first the well-known
bin/wine path inside the managed wine directory (checked with exists and
X_OK), then the recursive scan of that directory, then the system lookup.
The walk argument is the os.walk enumeration of wine_dir; whichWine models
subprocess.run(["which", "wine"]): the stripped stdout on success, none when
which exits nonzero (the bare except returns None). -/
def find_wine_binary (fs : FS) (wineDir : String)
    (walk : List (String × List String)) (whichWine : Option String) : Option String :=
  let wineBinPath := wineDir ++ "/bin/wine"
  if pathExists fs wineBinPath && isExec fs wineBinPath then some wineBinPath
  else
    match walkSearch fs walk with
    | some p => some p
    | none => whichWine

/-- The predicate of the claim: the candidate exists and is executable. -/
def existsAndExec (fs : FS) (p : String) : Bool :=
  pathExists fs p && isExec fs p

/-- The fixed candidate order the claim describes: the well-known bin/wine
subpath, then every file named wine in walk order, then the result of the
standard-path lookup. -/
def runtimeCandidates (wineDir : String) (walk : List (String × List String))
    (whichWine : Option String) : List String :=
  (wineDir ++ "/bin/wine") ::
    ((walk.flatMap (fun rd => (rd.2.filter (fun f => f = "wine")).map
      (fun f => rd.1 ++ "/" ++ f))) ++ whichWine.toList)

/-- Stated from the claim wording, to be compared with find_wine_binary: the
first candidate in the fixed order that exists and is executable. -/
def find_runtime_spec (fs : FS) (wineDir : String)
    (walk : List (String × List String)) (whichWine : Option String) : Option String :=
  (runtimeCandidates wineDir walk whichWine).find? (fun p => existsAndExec fs p)

/-- In this filesystem model executability implies existence, as it does for
os.access on a real filesystem. -/
theorem pathExists_of_isExec (fs : FS) (p : String) (h : isExec fs p = true) :
    pathExists fs p = true := by
  induction fs with
  | nil => simp [isExec] at h
  | cons q rest ih =>
    simp only [isExec, List.any_cons, Bool.or_eq_true] at h
    rcases h with h1 | h2
    · simp [pathExists, List.any_cons, ((Bool.and_eq_true _ _).mp h1).1]
    · have := ih h2
      simp only [pathExists, List.any_cons, Bool.or_eq_true]
      exact Or.inr this

/-- The two-sided check of the claim collapses to the executability check the
scan performs. -/
theorem existsAndExec_eq_isExec (fs : FS) (p : String) :
    existsAndExec fs p = isExec fs p := by
  unfold existsAndExec
  cases h : isExec fs p with
  | false => exact Bool.and_false _
  | true => rw [pathExists_of_isExec fs p h]; rfl

/-- The inner scan loop returns the first existing executable candidate among
the files named wine in this directory. -/
theorem fileSearch_eq (fs : FS) (root : String) (files : List String) :
    fileSearch fs root files =
      ((files.filter (fun f => f = "wine")).map (fun f => root ++ "/" ++ f)).find?
        (fun p => existsAndExec fs p) := by
  induction files with
  | nil => rfl
  | cons f rest ih =>
    by_cases hf : f = "wine"
    · subst hf
      cases hex : isExec fs (root ++ "/" ++ "wine") with
      | true =>
        rw [show fileSearch fs root ("wine" :: rest) = some (root ++ "/" ++ "wine") by
          simp [fileSearch, hex]]
        rw [List.filter_cons, if_pos (by simp), List.map_cons]
        rw [List.find?_cons_of_pos _ (by rw [existsAndExec_eq_isExec]; exact hex)]
      | false =>
        rw [show fileSearch fs root ("wine" :: rest) = fileSearch fs root rest by
          simp [fileSearch, hex]]
        rw [List.filter_cons, if_pos (by simp), List.map_cons]
        rw [List.find?_cons_of_neg _ (by rw [existsAndExec_eq_isExec]; simp [hex])]
        exact ih
    · rw [show fileSearch fs root (f :: rest) = fileSearch fs root rest by
        simp [fileSearch, hf]]
      rw [List.filter_cons, if_neg (by simp [hf])]
      exact ih

/-- The whole walk scan returns the first existing executable candidate among
all files named wine, in walk order. -/
theorem walkSearch_eq (fs : FS) (walk : List (String × List String)) :
    walkSearch fs walk =
      (walk.flatMap (fun rd => (rd.2.filter (fun f => f = "wine")).map
        (fun f => rd.1 ++ "/" ++ f))).find? (fun p => existsAndExec fs p) := by
  induction walk with
  | nil => rfl
  | cons rd rest ih =>
    rw [List.flatMap_cons, List.find?_append, ← fileSearch_eq, ← ih]
    cases hfs : fileSearch fs rd.1 rd.2 with
    | some p => simp [walkSearch, hfs]
    | none => simp [walkSearch, hfs]

/-- C7: find_wine_binary searches the well-known bin/wine subpath, then the
recursive scan of the wine directory, then the standard executable path, and
returns the first candidate that exists and is executable, none otherwise —
provided the standard-path lookup honours its contract of only returning
existing executables. -/
theorem c7_find_runtime_order (fs : FS) (wineDir : String)
    (walk : List (String × List String)) (whichWine : Option String)
    (hww : ∀ p, whichWine = some p → existsAndExec fs p = true) :
    find_wine_binary fs wineDir walk whichWine =
      find_runtime_spec fs wineDir walk whichWine := by
  unfold find_wine_binary find_runtime_spec runtimeCandidates
  cases h1 : existsAndExec fs (wineDir ++ "/bin/wine") with
  | true =>
    have h1' : (pathExists fs (wineDir ++ "/bin/wine") &&
        isExec fs (wineDir ++ "/bin/wine")) = true := h1
    rw [if_pos h1', List.find?_cons_of_pos _ h1]
  | false =>
    have h1' : ¬ (pathExists fs (wineDir ++ "/bin/wine") &&
        isExec fs (wineDir ++ "/bin/wine")) = true := by
      rw [show (pathExists fs (wineDir ++ "/bin/wine") &&
        isExec fs (wineDir ++ "/bin/wine")) = existsAndExec fs (wineDir ++ "/bin/wine")
        from rfl, h1]
      exact Bool.false_ne_true
    rw [if_neg h1', List.find?_cons_of_neg _ (by rw [h1]; exact Bool.false_ne_true)]
    rw [List.find?_append, ← walkSearch_eq]
    cases walkSearch fs walk with
    | some p => rfl
    | none =>
      cases hw : whichWine with
      | none => rfl
      | some p =>
        simp only [Option.toList_some]
        rw [List.find?_cons_of_pos _ (hww p hw)]
        rfl

/-- C7 witness: the refinement evaluated on a filesystem holding only the
bundled binary, with the system lookup failing. -/
theorem c7_find_runtime_order_witness :
    find_wine_binary [("/w/bin/wine", true)] "/w" [] none = some ("/w" ++ "/bin/wine") ∧
    find_wine_binary [("/w/bin/wine", true)] "/w" [] none =
      find_runtime_spec [("/w/bin/wine", true)] "/w" [] none :=
  ⟨by decide,
   c7_find_runtime_order [("/w/bin/wine", true)] "/w" [] none
     (fun p h => Option.noConfusion h)⟩

/- Persistence loader model (load_exes, lines 290-323, together with the
state __init__ has set up when it runs). -/

/-- One entry of a persisted document.  load_exes reads no field of a stored
entry except "category" (through exe.get("category", "Other") in the legacy
branch), so an entry is modelled by that one optional field; every other key
is carried along opaquely and never inspected by the loader. -/
structure RawEntry where
  category : Option String
deriving DecidableEq

/-- The category tag of a stored entry: exe.get("category", "Other"). -/
def tagOf (e : RawEntry) : String := e.category.getD "Other"

/-- The tag of the entry at position j (defaulting like the source). -/
def tagAt (es : List RawEntry) (j : Nat) : String :=
  match es.get? j with
  | some e => tagOf e
  | none => "Other"

/-- One iteration of the legacy rebuild loop (lines 311-315): create the
category on demand, then append the entry position to its member list. -/
def rebuildStep (cats : Categories) (i : Nat) (e : RawEntry) : Categories :=
  catUpdate (catEnsure cats (tagOf e)) (tagOf e) (fun l => l ++ [i])

/-- The enumerate loop of the legacy rebuild, processing entries from
position i onward. -/
def rebuildAux (cats : Categories) (i : Nat) : List RawEntry → Categories
  | [] => cats
  | e :: rest => rebuildAux (rebuildStep cats i e) (i + 1) rest

/-- Rebuilding the category index of a legacy flat-array document, starting
from the three built-in categories (lines 306-315). -/
def rebuildCategories (es : List RawEntry) : Categories :=
  rebuildAux initCategories 0 es

/-- The shapes a stored exes.json can present to load_exes: absent file,
unreadable or unparsable file, a dict (current layout, with both keys
optional), or a bare array (legacy layout). -/
inductive StoreFile where
  | missing
  | unreadable
  | dictDoc (exes : Option (List RawEntry)) (cats : Option Categories)
  | listDoc (exes : List RawEntry)

/-- What loading leaves behind: the exes list and category index now held by
the manager, or a crash of the constructor. -/
inductive LoadResult where
  | ok (exes : List RawEntry) (categories : Categories)
  | crashed
deriving DecidableEq

/-- WineExeManager.load_exes (lines 290-323) in the state it runs in.
categories0 is the value of self.categories when load_exes starts (__init__
has just set it to the three built-ins).  A missing file returns [] and
leaves the categories untouched.  A dict document installs its exes list
(defaulting to []) and its categories (defaulting to the three built-ins
when the key is absent); a bare array installs the list and rebuilds the
index from the category tags.  statusBarReady records whether
self.status_bar exists yet: the except handler calls
self.status_bar.showMessage, and during __init__ create_ui has not run, so
that attribute access itself raises AttributeError and the constructor
crashes instead of reporting the error. -/
def load_exes (statusBarReady : Bool) (categories0 : Categories) :
    StoreFile → LoadResult
  | StoreFile.missing => LoadResult.ok [] categories0
  | StoreFile.unreadable =>
    if statusBarReady then LoadResult.ok [] categories0 else LoadResult.crashed
  | StoreFile.dictDoc exes cats =>
    LoadResult.ok (exes.getD []) (cats.getD initCategories)
  | StoreFile.listDoc exes => LoadResult.ok exes (rebuildCategories exes)

/-- C9: loading with no stored file yields the empty registry with the three
built-in empty categories, as claimed; but loading a corrupt or unreadable
file during startup does not degrade gracefully: the error handler touches
self.status_bar, which create_ui has not yet created, so the constructor
crashes.  Only after the UI exists would the handler run through. -/
theorem c9_load_missing_ok_corrupt_crashes :
    load_exes false initCategories StoreFile.missing = LoadResult.ok [] initCategories ∧
    load_exes false initCategories StoreFile.unreadable = LoadResult.crashed ∧
    load_exes true initCategories StoreFile.unreadable = LoadResult.ok [] initCategories :=
  ⟨rfl, rfl, rfl⟩

/-- C10: a dict-shaped document without the "categories" key loads its exes
list as given but replaces the category index with the three built-in empty
categories; membership is not reconstructed from the entries, so every entry
of such a document belongs to no category afterwards (all member lists are
empty). -/
theorem c10_dict_without_categories_resets_index
    (b : Bool) (categories0 : Categories) (exes : List RawEntry) :
    load_exes b categories0 (StoreFile.dictDoc (some exes) none) =
      LoadResult.ok exes initCategories ∧
    initCategories.all (fun p => p.2.isEmpty) = true :=
  ⟨rfl, rfl⟩

/-- One rebuild iteration preserves the loop invariant: each member list of
the accumulated index holds exactly the already-processed positions whose tag
names its category, and a category absent from the index has no processed
position tagged with it. -/
theorem rebuildStep_inv (cats : Categories) (i : Nat) (e : RawEntry)
    (tag : Nat → String) (htag : tagOf e = tag i)
    (hsome : ∀ name l, catLookup cats name = some l →
      ∀ j, j ∈ l ↔ (j < i ∧ tag j = name))
    (hnone : ∀ name, catLookup cats name = none → ∀ j, j < i → tag j ≠ name) :
    (∀ name l, catLookup (rebuildStep cats i e) name = some l →
      ∀ j, j ∈ l ↔ (j < i + 1 ∧ tag j = name)) ∧
    (∀ name, catLookup (rebuildStep cats i e) name = none →
      ∀ j, j < i + 1 → tag j ≠ name) := by
  constructor
  · intro name l hl j
    by_cases hn : name = tagOf e
    · subst hn
      have hens := catLookup_catEnsure_self cats (tagOf e)
      have hupd := catLookup_catUpdate_self (catEnsure cats (tagOf e)) (tagOf e)
        (fun l0 => l0 ++ [i]) _ hens
      unfold rebuildStep at hl
      rw [hl] at hupd
      have hleq : l = (catLookup cats (tagOf e)).getD [] ++ [i] :=
        Option.some.inj hupd
      subst hleq
      cases hc : catLookup cats (tagOf e) with
      | some l0 =>
        have hmem := fun j' => hsome (tagOf e) l0 hc j'
        simp only [Option.getD_some, List.mem_append, List.mem_singleton]
        constructor
        · rintro (hj | rfl)
          · obtain ⟨h1, h2⟩ := (hmem j).mp hj
            exact ⟨by omega, h2⟩
          · exact ⟨by omega, htag.symm⟩
        · rintro ⟨hj, htg⟩
          have : j < i ∨ j = i := by omega
          rcases this with hj' | rfl
          · exact Or.inl ((hmem j).mpr ⟨hj', htg⟩)
          · exact Or.inr rfl
      | none =>
        simp only [Option.getD_none, List.nil_append, List.mem_singleton]
        constructor
        · rintro rfl
          exact ⟨by omega, htag.symm⟩
        · rintro ⟨hj, htg⟩
          have : j < i ∨ j = i := by omega
          rcases this with hj' | rfl
          · exact absurd htg (hnone (tagOf e) hc j hj')
          · rfl
    · unfold rebuildStep at hl
      rw [catLookup_catUpdate_ne _ _ _ _ hn, catLookup_catEnsure_ne _ _ _ hn] at hl
      have hmem := hsome name l hl j
      constructor
      · intro hj
        obtain ⟨h1, h2⟩ := hmem.mp hj
        exact ⟨by omega, h2⟩
      · rintro ⟨hj, htg⟩
        have : j < i ∨ j = i := by omega
        rcases this with hj' | rfl
        · exact hmem.mpr ⟨hj', htg⟩
        · exact absurd (htag.trans htg).symm hn
  · intro name hn0 j hj htg
    by_cases hn : name = tagOf e
    · subst hn
      have hens := catLookup_catEnsure_self cats (tagOf e)
      have hupd := catLookup_catUpdate_self (catEnsure cats (tagOf e)) (tagOf e)
        (fun l0 => l0 ++ [i]) _ hens
      unfold rebuildStep at hn0
      rw [hn0] at hupd
      exact Option.noConfusion hupd
    · unfold rebuildStep at hn0
      rw [catLookup_catUpdate_ne _ _ _ _ hn, catLookup_catEnsure_ne _ _ _ hn] at hn0
      have : j < i ∨ j = i := by omega
      rcases this with hj' | rfl
      · exact hnone name hn0 j hj' htg
      · exact hn (htag.trans htg).symm

/-- The rebuild loop, run from any position with a sound accumulator, yields
an index in which membership is exactly tag agreement on processed
positions. -/
theorem rebuildAux_mem (tag : Nat → String) :
    ∀ (rest : List RawEntry) (i : Nat) (cats : Categories),
      (∀ k e, rest.get? k = some e → tagOf e = tag (i + k)) →
      (∀ name l, catLookup cats name = some l →
        ∀ j, j ∈ l ↔ (j < i ∧ tag j = name)) →
      (∀ name, catLookup cats name = none → ∀ j, j < i → tag j ≠ name) →
      ∀ name l, catLookup (rebuildAux cats i rest) name = some l →
        ∀ j, j ∈ l ↔ (j < i + rest.length ∧ tag j = name) := by
  intro rest
  induction rest with
  | nil =>
    intro i cats _ hsome _ name l hl j
    simpa using hsome name l hl j
  | cons e rest ih =>
    intro i cats hlink hsome hnone name l hl j
    have htag : tagOf e = tag i := by
      have := hlink 0 e rfl
      simpa using this
    obtain ⟨hsome', hnone'⟩ := rebuildStep_inv cats i e tag htag hsome hnone
    have hlink' : ∀ k e', rest.get? k = some e' → tagOf e' = tag ((i + 1) + k) := by
      intro k e' hk
      have := hlink (k + 1) e' hk
      rwa [show i + (k + 1) = (i + 1) + k by omega] at this
    have h := ih (i + 1) (rebuildStep cats i e) hlink' hsome' hnone' name l hl j
    rwa [show (i + 1) + rest.length = i + (e :: rest).length by
      simp [List.length_cons]; omega] at h

/-- Membership in the rebuilt index of a legacy document is exactly tag
agreement: position j sits in the list registered under name precisely when
j is a position of the document and its entry is tagged name (absent tags
defaulting to Other). -/
theorem rebuild_mem (es : List RawEntry) (name : String) (l : List Nat)
    (hl : catLookup (rebuildCategories es) name = some l) (j : Nat) :
    j ∈ l ↔ (j < es.length ∧ tagAt es j = name) := by
  have h := rebuildAux_mem (tagAt es) es 0 initCategories ?_ ?_ ?_ name l hl j
  · simpa using h
  · intro k e hk
    have hk' : es[k]? = some e := by rw [← List.get?_eq_getElem?]; exact hk
    simp [tagAt, hk']
  · intro name' l' h' j'
    have hl0 : l' = [] := by
      simp only [initCategories, catLookup] at h'
      split_ifs at h' <;> simp_all
    subst hl0
    simp
  · intro name' _ j' hj'
    exact absurd hj' (Nat.not_lt_zero _)

/-- The legacy document of the C6 example: three entries tagged Games,
Other, Games. -/
def c6Doc : List RawEntry := [⟨some "Games"⟩, ⟨some "Other"⟩, ⟨some "Games"⟩]

/-- C6: loading a legacy flat-array document rebuilds the category index
from each entry tag, defaulting an absent tag to Other (first conjunct, the
general membership law); in particular the three-entry Games, Other, Games
document loads to Games = [0, 2], Other = [1] with the built-in Productivity
present and empty, and a one-entry document without a category field files
its entry under Other. -/
theorem c6_legacy_reconstruction :
    (∀ (es : List RawEntry) (name : String) (l : List Nat),
      catLookup (rebuildCategories es) name = some l →
      ∀ j, j ∈ l ↔ (j < es.length ∧ tagAt es j = name)) ∧
    load_exes false initCategories (StoreFile.listDoc c6Doc) =
      LoadResult.ok c6Doc [("Games", [0, 2]), ("Productivity", []), ("Other", [1])] ∧
    load_exes false initCategories (StoreFile.listDoc [⟨none⟩]) =
      LoadResult.ok [⟨none⟩] [("Games", []), ("Productivity", []), ("Other", [0])] :=
  ⟨rebuild_mem, by decide, by decide⟩

/-- C6 witness: the membership law evaluated on the example document. -/
theorem c6_legacy_reconstruction_witness :
    catLookup (rebuildCategories c6Doc) "Games" = some [0, 2] ∧
    (2 ∈ ([0, 2] : List Nat) ↔ (2 < c6Doc.length ∧ tagAt c6Doc 2 = "Games")) :=
  ⟨by decide, c6_legacy_reconstruction.1 c6Doc "Games" [0, 2] (by decide) 2⟩
